import Mathlib

/-!
Verification of the voice-relay STT service and its evaluation harness.

The Python sources embedded here are `packages/stt/main.py` (the FastAPI
transcription service) and `packages/stt/test/test_stt.py` (the evaluation
harness).  Strings are modelled as `List Char`; Python's Unicode-aware
`str.lower`, `str.strip`, `\w` and `\s` classes are modelled at the ASCII
level via Lean's `Char.toLower`, `Char.isWhitespace` and `Char.isAlphanum`,
which agree with Python on the ASCII range.  Floats are modelled as exact
rationals.
-/

namespace VoiceRelay

/-- Python regex `\w` (word character) on the ASCII range:
letters, digits, and the underscore. -/
def isWordChar (c : Char) : Bool :=
  c.isAlphanum || c == '_'

/-- Python `str.lower()` (ASCII model): lowercase every character. -/
def pyLower (s : List Char) : List Char :=
  s.map Char.toLower

/-- Python `str.strip()` (ASCII model): drop leading and trailing
whitespace characters. -/
def pyStrip (s : List Char) : List Char :=
  (((s.dropWhile Char.isWhitespace).reverse).dropWhile Char.isWhitespace).reverse

/-- `re.sub(r'[^\w\s]', '', text)`: keep exactly the characters that are
word characters or whitespace. -/
def removePunct (s : List Char) : List Char :=
  s.filter (fun c => isWordChar c || c.isWhitespace)

/-- `re.sub(r'\s+', ' ', text)`: replace every maximal run of whitespace
characters by a single space. -/
def collapseWS : List Char → List Char
  | [] => []
  | [c] => if c.isWhitespace then [' '] else [c]
  | c₁ :: c₂ :: rest =>
    if c₁.isWhitespace && c₂.isWhitespace then
      collapseWS (c₂ :: rest)
    else
      (if c₁.isWhitespace then ' ' else c₁) :: collapseWS (c₂ :: rest)

/-- `normalize_text` from `test_stt.py`: lowercase, strip, remove
non-word/non-space characters, collapse whitespace runs to one space. -/
def normalize_text (s : List Char) : List Char :=
  collapseWS (removePunct (pyStrip (pyLower s)))

/-- Python `str.split()` with no separator: split on runs of whitespace,
discarding empty tokens.  Accumulator-based so that it is structurally
recursive.  `acc` holds the current (reversed) in-progress token. -/
def pySplitAux : List Char → List Char → List (List Char)
  | [], acc => if acc = [] then [] else [acc.reverse]
  | c :: rest, acc =>
    if c.isWhitespace then
      if acc = [] then pySplitAux rest [] else acc.reverse :: pySplitAux rest []
    else
      pySplitAux rest (c :: acc)

/-- Python `str.split()` with no separator. -/
def pySplit (s : List Char) : List (List Char) :=
  pySplitAux s []

/-- `set(normalize_text(s).split())`: the set of whitespace-separated
tokens of the normalized string. -/
def tokenSet (s : List Char) : Finset (List Char) :=
  (pySplit (normalize_text s)).toFinset

/-- `calculate_similarity` from `test_stt.py`: Jaccard index over the two
token sets, with the empty-expected special case, returned as an exact
rational (the Python code computes the same value as a float). -/
def calculate_similarity (expected actual : List Char) : ℚ :=
  let expected_words := tokenSet expected
  let actual_words := tokenSet actual
  if expected_words = ∅ then
    (if actual_words = ∅ then 1 else 0)
  else
    let inter := expected_words ∩ actual_words
    let uni := expected_words ∪ actual_words
    if uni = ∅ then 0 else (inter.card : ℚ) / (uni.card : ℚ)

/-- The similarity algorithm as worded by the spec: the Jaccard index
`|intersection| / |union|` of the two token sets, except that when the
expected token set is empty the result is 1 when the actual token set is
also empty and 0 otherwise. -/
def jaccard_spec (expected actual : List Char) : ℚ :=
  let E := tokenSet expected
  let A := tokenSet actual
  if E = ∅ then (if A = ∅ then 1 else 0)
  else ((E ∩ A).card : ℚ) / ((E ∪ A).card : ℚ)

/-! ### The transcription service (`main.py`) -/

/-- Python `str.rfind` over a list of characters: the largest index at
which `c` occurs, or `-1` when it does not occur.  Accumulator form. -/
def rfindAux (c : Char) : List Char → Nat → Int → Int
  | [], _, best => best
  | d :: rest, i, best => rfindAux c rest (i + 1) (if d = c then (i : Int) else best)

/-- Python `str.rfind`. -/
def rfind (c : Char) (l : List Char) : Int :=
  rfindAux c l 0 (-1)

/-- `os.path.splitext` (the shared `genericpath._splitext` with separator
`/` and alternate separator `\`): split off the extension beginning at the
last dot, provided some character strictly between the last separator and
that dot is not itself a dot (so leading dots of the basename never start
an extension). -/
def splitext (p : List Char) : List Char × List Char :=
  let sepIndex := max (rfind '/' p) (rfind '\\' p)
  let dotIndex := rfind '.' p
  if sepIndex < dotIndex then
    if ((p.drop (sepIndex + 1).toNat).take (dotIndex - sepIndex - 1).toNat).any
        (fun c => c != '.') then
      (p.take dotIndex.toNat, p.drop dotIndex.toNat)
    else (p, [])
  else (p, [])

/-- The temp-file suffix chosen at `main.py:38`:
`os.path.splitext(file.filename)[1] if file.filename else ".webm"`.
`none` models a missing filename; the empty string is falsy in Python, so
it also selects the `".webm"` default. -/
def suffixOf (filename : Option (List Char)) : List Char :=
  match filename with
  | none => ".webm".data
  | some f => if f = [] then ".webm".data else (splitext f).2

/-- File-system operations performed by the `/transcribe` handler, in
order: creating the named temporary file, writing the uploaded bytes,
invoking the inference engine on the path, deleting the path. -/
inductive FsEvent
  | create (path : List Char)
  | write (path : List Char)
  | invoke (path : List Char)
  | delete (path : List Char)
deriving DecidableEq

/-- Outcome of the opaque inference engine call `model.transcribe`:
either a finite sequence of text segments plus language metadata, or a
raised exception carrying a message (`str(e)`).  The handler's
`except Exception` catches every exception, so one constructor covers
both expected inference errors and unexpected ones. -/
inductive EngineOutcome
  | ok (segments : List (List Char)) (language : List Char)
      (language_probability : ℚ)
  | raise (msg : List Char)

/-- HTTP-level result of the `/transcribe` handler. -/
inductive Response
  | success (text : List Char) (language : List Char)
      (language_probability : ℚ)
  | httpError (status : Nat) (detail : List Char)
deriving DecidableEq

/-- The `POST /transcribe` handler of `main.py`, returning the response
together with the ordered trace of file-system events it performs.
`modelLoaded` models `model is not None`; `tmpBase` is the fresh base name
chosen by `tempfile.NamedTemporaryFile`, to which the chosen suffix is
appended.  On the success path the handler joins all segment texts with no
separator and strips the result; on an engine exception it answers 500
with the exception message; in both cases the `finally` block deletes the
temporary file as the last action before the response is returned. -/
def transcribe (modelLoaded : Bool) (engine : EngineOutcome)
    (filename : Option (List Char)) (tmpBase : List Char) :
    Response × List FsEvent :=
  if modelLoaded = false then
    (.httpError 503 ("Model not loaded".data), [])
  else
    let tmp_path := tmpBase ++ suffixOf filename
    match engine with
    | .ok segments language prob =>
        (.success (pyStrip segments.flatten) language prob,
         [.create tmp_path, .write tmp_path, .invoke tmp_path, .delete tmp_path])
    | .raise msg =>
        (.httpError 500 msg,
         [.create tmp_path, .write tmp_path, .invoke tmp_path, .delete tmp_path])

/-- Effect of one file-system event on the set of existing paths. -/
def applyEvent (fs : Finset (List Char)) : FsEvent → Finset (List Char)
  | .create p => insert p fs
  | .write _ => fs
  | .invoke _ => fs
  | .delete p => fs.erase p

/-- Replay a trace of file-system events on an initial set of paths. -/
def runEvents (fs : Finset (List Char)) (evs : List FsEvent) :
    Finset (List Char) :=
  evs.foldl applyEvent fs

/-! ### The evaluation harness (`test_stt.py`) -/

/-- Outcome of the HTTP POST performed by `transcribe_file`: either a
response with its status code, the value of the `text` field of the parsed
JSON body when present, and the raw body text; or a raised transport
exception carrying its message. -/
inductive HttpOutcome
  | response (status : Nat) (textField : Option (List Char)) (body : List Char)
  | exception (msg : List Char)

/-- `transcribe_file` from `test_stt.py`, as a function of the HTTP
outcome: on status 200 it returns `(resp.json().get('text', ''), None)`;
on any other status it returns `(None, "HTTP <status>: <body>")`; on a
raised exception it returns `(None, str(e))`. -/
def transcribe_file : HttpOutcome → Option (List Char) × Option (List Char)
  | .response status textField body =>
    if status = 200 then (some (textField.getD []), none)
    else (none, some (("HTTP ".data) ++ (Nat.repr status).data ++ (": ".data) ++ body))
  | .exception msg => (none, some msg)

/-- A manifest test case; `description` already carries the
`test_case.get('description', '')` default. -/
structure TestCase where
  file : List Char
  expected : List Char
  description : List Char

/-- The `TestResult` dataclass of `test_stt.py`, with `similarity` as an
exact rational and `error` defaulting to `None`. -/
structure TestResult where
  file : List Char
  description : List Char
  expected : List Char
  actual : List Char
  similarity : ℚ
  passed : Bool
  error : Option (List Char)

/-- Python truthiness of a `str | None` value: `None` and the empty
string are falsy. -/
def isTruthyStr : Option (List Char) → Bool
  | none => false
  | some s => !s.isEmpty

/-- `run_test` from `test_stt.py`.  `http` models the network (what the
POST to the service would yield for a given path), `fsExists` models
`Path.exists`, `mediaDir` is `MEDIA_DIR`, and `threshold` is the pass
threshold (default 0.7 in the source).  The returned `Bool` records
whether the service was contacted.  The result is `none` exactly on the
one path where the Python code raises an uncaught exception: the error
component is falsy (an empty error string) yet `actual` is `None`, so
`calculate_similarity(expected, None)` raises `AttributeError`. -/
def run_test (http : List Char → HttpOutcome) (fsExists : List Char → Bool)
    (mediaDir : List Char) (threshold : ℚ) (test_case : TestCase) :
    Option (TestResult × Bool) :=
  let file_path := mediaDir ++ '/' :: test_case.file
  if fsExists file_path = false then
    some (⟨test_case.file, test_case.description, test_case.expected, [],
           0, false, some (("File not found: ".data) ++ file_path)⟩, false)
  else
    let r := transcribe_file (http file_path)
    if isTruthyStr r.2 then
      some (⟨test_case.file, test_case.description, test_case.expected, [],
             0, false, r.2⟩, true)
    else
      match r.1 with
      | none => none
      | some actual =>
        let similarity := calculate_similarity test_case.expected actual
        some (⟨test_case.file, test_case.description, test_case.expected,
               actual, similarity, decide (threshold ≤ similarity), none⟩, true)

/-- No two adjacent characters are both whitespace (an invariant of
`collapseWS` output used throughout the normalization lemmas). -/
def NoAdjWS (l : List Char) : Prop :=
  List.Chain' (fun a b => a.isWhitespace = false ∨ b.isWhitespace = false) l

/-- A sample `TestResult`, as produced by `run_test` on a test case whose
fixture exists and whose transcription comes back with status 200 and text
equal to the expected text. -/
def sampleResult : TestResult :=
  ⟨"f.wav".data, [], "hi".data, "hi".data,
   calculate_similarity ("hi".data) ("hi".data),
   decide ((7 : ℚ)/10 ≤ calculate_similarity ("hi".data) ("hi".data)), none⟩

/-! ### Character-level lemmas -/

/-- `Char.ofNat` of a valid scalar value decodes back to the same `Nat`. -/
theorem char_toNat_ofNat_valid (n : Nat) (h : n.isValidChar) :
    (Char.ofNat n).toNat = n := by
  simp only [Char.ofNat, h, dif_pos, Char.ofNatAux, Char.toNat]
  simp [UInt32.toNat]

/-- Lean's ASCII `Char.toLower` is idempotent. -/
theorem toLower_toLower (c : Char) : c.toLower.toLower = c.toLower := by
  unfold Char.toLower
  by_cases h : c.toNat ≥ 65 ∧ c.toNat ≤ 90
  · rw [if_pos h]
    have hv : (c.toNat + 32).isValidChar := Or.inl (by omega)
    have ht : (Char.ofNat (c.toNat + 32)).toNat = c.toNat + 32 :=
      char_toNat_ofNat_valid _ hv
    rw [if_neg]
    omega
  · rw [if_neg h, if_neg h]

/-- The space character is fixed by `Char.toLower`. -/
theorem toLower_space : Char.toLower ' ' = ' ' := by decide

/-! ### Lemmas about `collapseWS` -/

/-- Every character of `collapseWS l` is a non-whitespace character of `l`
or the space character. -/
theorem mem_collapseWS :
    ∀ l : List Char, ∀ c ∈ collapseWS l,
      (c ∈ l ∧ c.isWhitespace = false) ∨ c = ' ' := by
  intro l
  induction l with
  | nil => intro c hc; simp [collapseWS] at hc
  | cons d t ih =>
    cases t with
    | nil =>
      intro c hc
      by_cases hd : d.isWhitespace
      · simp [collapseWS, hd] at hc
        right; exact hc
      · simp [collapseWS, hd] at hc
        subst hc
        left; exact ⟨by simp, by simpa using hd⟩
    | cons d₂ rest =>
      intro c hc
      by_cases hb : d.isWhitespace && d₂.isWhitespace
      · rw [show collapseWS (d :: d₂ :: rest) = collapseWS (d₂ :: rest) by
          simp [collapseWS, hb]] at hc
        rcases ih c hc with ⟨hm, hw⟩ | hsp
        · left; exact ⟨List.mem_cons_of_mem d hm, hw⟩
        · right; exact hsp
      · rw [show collapseWS (d :: d₂ :: rest) =
            (if d.isWhitespace then ' ' else d) :: collapseWS (d₂ :: rest) by
          simp [collapseWS, hb]] at hc
        rcases List.mem_cons.mp hc with hh | ht
        · by_cases hd : d.isWhitespace
          · right; simpa [hd] using hh
          · left
            simp only [hd] at hh
            simp only [if_false, Bool.false_eq_true, if_neg] at hh
            subst hh
            exact ⟨by simp, by simpa using hd⟩
        · rcases ih c ht with ⟨hm, hw⟩ | hsp
          · left; exact ⟨List.mem_cons_of_mem d hm, hw⟩
          · right; exact hsp

/-- When the head is not whitespace, `collapseWS` keeps it as head. -/
theorem head_collapseWS (d : Char) (t : List Char) (hd : d.isWhitespace = false) :
    (collapseWS (d :: t)).head? = some d := by
  cases t with
  | nil => simp [collapseWS, hd]
  | cons d₂ rest => simp [collapseWS, hd]

/-- The output of `collapseWS` has no two adjacent whitespace characters. -/
theorem noAdjWS_collapseWS : ∀ l : List Char, NoAdjWS (collapseWS l) := by
  intro l
  induction l with
  | nil => simp [collapseWS, NoAdjWS]
  | cons d t ih =>
    cases t with
    | nil =>
      by_cases hd : d.isWhitespace <;>
        simp [collapseWS, hd, NoAdjWS]
    | cons d₂ rest =>
      by_cases hb : d.isWhitespace && d₂.isWhitespace
      · rw [NoAdjWS, show collapseWS (d :: d₂ :: rest) = collapseWS (d₂ :: rest) by
          simp [collapseWS, hb]]
        exact ih
      · rw [NoAdjWS, show collapseWS (d :: d₂ :: rest) =
            (if d.isWhitespace then ' ' else d) :: collapseWS (d₂ :: rest) by
          simp [collapseWS, hb]]
        apply List.chain'_cons'.mpr
        refine ⟨?_, ih⟩
        intro y hy
        by_cases hd : d.isWhitespace
        · have hd₂ : d₂.isWhitespace = false := by
            simp [hd] at hb; simpa using hb
          rw [head_collapseWS d₂ rest hd₂] at hy
          right
          simp only [Option.mem_def, Option.some.injEq] at hy
          subst hy; exact hd₂
        · left; simp [hd]

/-! ### Lemmas about `pyStrip` -/

/-- `dropWhile` preserves the chain property (it yields a suffix). -/
theorem chain_dropWhile {R : Char → Char → Prop} (p : Char → Bool) :
    ∀ l : List Char, List.Chain' R l → List.Chain' R (l.dropWhile p) := by
  intro l
  induction l with
  | nil => intro h; simp
  | cons a t ih =>
    intro h
    rw [List.dropWhile_cons]
    by_cases hp : p a
    · simp only [hp, if_true]
      exact ih h.tail
    · simp only [hp, Bool.false_eq_true, if_false]
      exact h

/-- Reversal preserves a symmetric chain property. -/
theorem chain_reverse_symm {R : Char → Char → Prop}
    (hsymm : ∀ a b, R a b → R b a) (l : List Char)
    (h : List.Chain' R l) : List.Chain' R l.reverse := by
  rw [List.chain'_reverse]
  exact h.imp (fun a b hab => hsymm a b hab)

/-- `pyStrip` preserves the no-adjacent-whitespace property. -/
theorem noAdjWS_pyStrip (l : List Char) (h : NoAdjWS l) : NoAdjWS (pyStrip l) := by
  unfold pyStrip NoAdjWS
  have hsymm : ∀ a b : Char,
      (a.isWhitespace = false ∨ b.isWhitespace = false) →
      (b.isWhitespace = false ∨ a.isWhitespace = false) := fun a b => Or.symm
  exact chain_reverse_symm hsymm _
    (chain_dropWhile _ _ (chain_reverse_symm hsymm _ (chain_dropWhile _ _ h)))

/-- Every character of `pyStrip l` is a character of `l`. -/
theorem mem_pyStrip {c : Char} {l : List Char} (h : c ∈ pyStrip l) : c ∈ l := by
  unfold pyStrip at h
  rw [List.mem_reverse] at h
  have h₂ := List.dropWhile_subset (l := (l.dropWhile Char.isWhitespace).reverse)
    Char.isWhitespace h
  rw [List.mem_reverse] at h₂
  exact List.dropWhile_subset Char.isWhitespace h₂

/-- `collapseWS` is the identity on lists with no adjacent whitespace in
which every whitespace character is a space. -/
theorem collapseWS_eq_self :
    ∀ l : List Char, NoAdjWS l → (∀ c ∈ l, c.isWhitespace → c = ' ') →
      collapseWS l = l := by
  intro l
  induction l with
  | nil => intro _ _; simp [collapseWS]
  | cons d t ih =>
    cases t with
    | nil =>
      intro _ hsp
      by_cases hd : d.isWhitespace
      · have : d = ' ' := hsp d (by simp) hd
        simp [collapseWS, hd, this]
      · simp [collapseWS, hd]
    | cons d₂ rest =>
      intro hchain hsp
      have hnb : (d.isWhitespace && d₂.isWhitespace) = false := by
        rcases List.chain'_cons.mp hchain with ⟨hR, _⟩
        rcases hR with h1 | h2
        · simp [h1]
        · simp [h2]
      rw [show collapseWS (d :: d₂ :: rest) =
            (if d.isWhitespace then ' ' else d) :: collapseWS (d₂ :: rest) by
          simp [collapseWS, hnb]]
      have htail : collapseWS (d₂ :: rest) = d₂ :: rest :=
        ih hchain.tail (fun c hc hw => hsp c (List.mem_cons_of_mem d hc) hw)
      rw [htail]
      by_cases hd : d.isWhitespace
      · have : d = ' ' := hsp d (by simp) hd
        simp [hd, this]
      · simp [hd]

/-- A map that fixes every element of a list is the identity on it. -/
theorem map_eq_self_of_fixed {f : Char → Char} :
    ∀ l : List Char, (∀ c ∈ l, f c = c) → l.map f = l := by
  intro l
  induction l with
  | nil => intro _; rfl
  | cons a t ih =>
    intro h
    simp only [List.map_cons]
    rw [h a (by simp), ih (fun c hc => h c (List.mem_cons_of_mem a hc))]

/-! ### Idempotence of `normalize_text` up to stripping -/

/-- Every character of a normalized string is a word character or a space,
is fixed by lowercasing, and is a space whenever it is whitespace. -/
theorem normalize_chars (s : List Char) :
    ∀ c ∈ normalize_text s,
      (isWordChar c || c.isWhitespace) = true ∧
      c.toLower = c ∧ (c.isWhitespace = true → c = ' ') := by
  intro c hc
  rcases mem_collapseWS _ c hc with ⟨hm, hw⟩ | hsp
  · rcases List.mem_filter.mp hm with ⟨hm', hkeep⟩
    have hlow : c ∈ pyLower s := mem_pyStrip hm'
    rcases List.mem_map.mp hlow with ⟨d, _, hd⟩
    refine ⟨hkeep, ?_, ?_⟩
    · rw [← hd]; exact toLower_toLower d
    · intro hws; rw [hws] at hw; exact absurd hw (by simp)
  · subst hsp
    exact ⟨by decide, toLower_space, fun _ => rfl⟩

/-- On a string whose characters are already normalized (word characters or
spaces, lowercase, no adjacent whitespace), `normalize_text` only strips. -/
theorem normalize_text_of_normalized (y : List Char)
    (hchars : ∀ c ∈ y,
      (isWordChar c || c.isWhitespace) = true ∧
      c.toLower = c ∧ (c.isWhitespace = true → c = ' '))
    (hchain : NoAdjWS y) :
    normalize_text y = pyStrip y := by
  show collapseWS (removePunct (pyStrip (pyLower y))) = pyStrip y
  have h1 : pyLower y = y :=
    map_eq_self_of_fixed y (fun c hc => (hchars c hc).2.1)
  rw [h1]
  have h2 : removePunct (pyStrip y) = pyStrip y := by
    unfold removePunct
    apply List.filter_eq_self.mpr
    intro c hc
    exact (hchars c (mem_pyStrip hc)).1
  rw [h2]
  exact collapseWS_eq_self _ (noAdjWS_pyStrip y hchain)
    (fun c hc hw => (hchars c (mem_pyStrip hc)).2.2 hw)

/-! ### Lemmas about `rfind` -/

/-- `rfindAux` leaves its accumulator untouched when the character does
not occur in the list. -/
theorem rfindAux_of_not_mem (c : Char) :
    ∀ (l : List Char) (i : Nat) (best : Int), c ∉ l →
      rfindAux c l i best = best := by
  intro l
  induction l with
  | nil => intro i best _; rfl
  | cons d rest ih =>
    intro i best h
    have hd : ¬ d = c := fun hdc => h (by simp [hdc])
    rw [rfindAux, if_neg hd]
    exact ih (i + 1) best (fun hc => h (List.mem_cons_of_mem d hc))

/-- `rfindAux` never returns less than `-1 ⊓ best`. -/
theorem neg_one_le_rfindAux (c : Char) :
    ∀ (l : List Char) (i : Nat) (best : Int), -1 ≤ best →
      -1 ≤ rfindAux c l i best := by
  intro l
  induction l with
  | nil => intro i best h; exact h
  | cons d rest ih =>
    intro i best h
    rw [rfindAux]
    by_cases hd : d = c
    · rw [if_pos hd]
      exact ih (i + 1) i (by omega)
    · rw [if_neg hd]
      exact ih (i + 1) best h

/-- `rfind` is at least `-1`. -/
theorem neg_one_le_rfind (c : Char) (l : List Char) : -1 ≤ rfind c l :=
  neg_one_le_rfindAux c l 0 (-1) (by omega)

/-- `rfind` of an absent character is `-1`. -/
theorem rfind_of_not_mem {c : Char} {l : List Char} (h : c ∉ l) :
    rfind c l = -1 :=
  rfindAux_of_not_mem c l 0 (-1) h

/-! ### The claims -/

/-- C1: for every pair of strings, `calculate_similarity` equals the
Jaccard index of the two whitespace-token sets of the normalized strings,
with result 1 when both token sets are empty and 0 when only the expected
one is; and on expected "turn on the lights" versus actual
"turn on the light" the similarity is 3/5 = 0.6. -/
theorem similarity_is_jaccard :
    (∀ e a : List Char, calculate_similarity e a = jaccard_spec e a) ∧
    calculate_similarity ("turn on the lights".data) ("turn on the light".data)
      = 3 / 5 := by
  constructor
  · intro e a
    unfold calculate_similarity jaccard_spec
    by_cases hE : tokenSet e = ∅
    · simp [hE]
    · have hU : ¬ tokenSet e ∪ tokenSet a = ∅ := by
        intro h
        exact hE (Finset.union_eq_empty.mp h).1
      simp [hE, hU]
  · have h1 : (tokenSet ("turn on the lights".data) ∩
        tokenSet ("turn on the light".data)).card = 3 := by decide
    have h2 : (tokenSet ("turn on the lights".data) ∪
        tokenSet ("turn on the light".data)).card = 5 := by decide
    have h3 : ¬ tokenSet ("turn on the lights".data) = ∅ := by decide
    have h4 : ¬ tokenSet ("turn on the lights".data) ∪
        tokenSet ("turn on the light".data) = ∅ := by decide
    simp only [calculate_similarity, h1, h2, if_neg h3, if_neg h4]
    norm_num

/-- C3 (counterexample): `normalize_text` is not idempotent.  On the
input ". a" the first pass strips nothing (the string starts with a dot),
then deletes the dot, leaving a leading space; the second pass strips that
space. -/
theorem normalize_not_idempotent :
    normalize_text (normalize_text (". a".data)) ≠ normalize_text (". a".data) := by
  decide

/-- C3 (amended): applying `normalize_text` twice equals applying it once
and then stripping leading/trailing whitespace; in particular
`normalize_text` is idempotent exactly on the inputs whose normalization
carries no leading or trailing whitespace. -/
theorem normalize_text_twice (s : List Char) :
    normalize_text (normalize_text s) = pyStrip (normalize_text s) :=
  normalize_text_of_normalized (normalize_text s) (normalize_chars s)
    (noAdjWS_collapseWS _)

/-- C4: with the model not loaded, the `/transcribe` handler answers
503 "Model not loaded" and performs no file I/O at all: no temporary file
is created or written, nothing is deleted, and the engine is never
invoked (the event trace is empty). -/
theorem transcribe_not_loaded (engine : EngineOutcome)
    (filename : Option (List Char)) (tmpBase : List Char) :
    transcribe false engine filename tmpBase =
      (.httpError 503 ("Model not loaded".data), []) := by
  rfl

/-- C5 (counterexample): the underscore survives `normalize_text` even
though it is neither a letter, nor a digit, nor whitespace, because the
regex class `\w` includes it. -/
theorem normalize_keeps_underscore :
    '_' ∈ normalize_text ("_".data) ∧
    ('_'.isAlphanum || '_'.isWhitespace) = false := by
  decide

/-- C5 (amended): every character of the output of `normalize_text` is a
letter, a digit, an underscore, or whitespace; characters outside this
class are removed, but the underscore is kept, not removed. -/
theorem normalize_chars_in_class (s : List Char) :
    ∀ c ∈ normalize_text s,
      (c.isAlphanum || c == '_' || c.isWhitespace) = true := by
  intro c hc
  have h := (normalize_chars s c hc).1
  simp only [isWordChar] at h
  simpa [Bool.or_assoc] using h

/-- C5 (witness). -/
theorem normalize_chars_in_class_witness :
    ('a'.isAlphanum || 'a' == '_' || 'a'.isWhitespace) = true :=
  normalize_chars_in_class ("a".data) 'a' (by decide)

/-- C7: `calculate_similarity` is symmetric in its two arguments,
including when exactly one of the two token sets is empty (the asymmetric
special case for an empty expected set returns 0 there, which agrees with
the 0-valued Jaccard ratio computed with the arguments swapped). -/
theorem similarity_symm (a b : List Char) :
    calculate_similarity a b = calculate_similarity b a := by
  unfold calculate_similarity
  by_cases hA : tokenSet a = ∅ <;> by_cases hB : tokenSet b = ∅
  · simp [hA, hB]
  · simp [hA, hB]
  · simp [hA, hB]
  · simp only [hA, hB, if_neg, if_false]
    rw [Finset.inter_comm, Finset.union_comm]

/-- C2: with the model loaded, on both exit paths of the handler (a
successful transcription, and an engine exception surfaced as a 500 — the
`except Exception` clause also covers unexpected exceptions), the
temporary file is deleted exactly once (one delete event in the trace),
and after replaying the request's trace on any initial file system the
temporary path does not exist. -/
theorem transcribe_cleans_up (engine : EngineOutcome)
    (filename : Option (List Char)) (tmpBase : List Char)
    (fs₀ : Finset (List Char)) :
    ((transcribe true engine filename tmpBase).2).count
        (FsEvent.delete (tmpBase ++ suffixOf filename)) = 1 ∧
    (tmpBase ++ suffixOf filename) ∉
      runEvents fs₀ (transcribe true engine filename tmpBase).2 := by
  cases engine <;>
    simp [transcribe, runEvents, applyEvent, List.count_cons,
      Finset.mem_erase]

/-- C6 (counterexample): a present filename with no extension (here
"audio", which contains no dot) yields the empty suffix, not the claimed
".webm" default. -/
theorem suffix_no_extension_empty :
    ('.' ∉ ("audio".data)) ∧ suffixOf (some ("audio".data)) = [] ∧
    ([] : List Char) ≠ ".webm".data := by
  decide

/-- C6 (amended): the temporary-file suffix is the `os.path.splitext`
extension of the original filename; it defaults to ".webm" only when the
filename is missing (or empty, which Python treats as falsy), and when a
nonempty filename has no extension (no dot at all) the suffix is the
empty string. -/
theorem suffix_rules :
    suffixOf none = ".webm".data ∧
    suffixOf (some []) = ".webm".data ∧
    (∀ f : List Char, f ≠ [] → suffixOf (some f) = (splitext f).2) ∧
    (∀ f : List Char, f ≠ [] → '.' ∉ f → suffixOf (some f) = []) := by
  refine ⟨rfl, rfl, ?_, ?_⟩
  · intro f hf
    simp [suffixOf, hf]
  · intro f hf hdot
    have hd : rfind '.' f = -1 := rfind_of_not_mem hdot
    have h1 : -1 ≤ rfind '/' f := neg_one_le_rfind _ _
    have h2 : rfind '/' f ≤ max (rfind '/' f) (rfind '\\' f) :=
      le_max_left _ _
    have hcond : ¬ (max (rfind '/' f) (rfind '\\' f) < rfind '.' f) := by
      rw [hd]; omega
    simp [suffixOf, hf, splitext, hcond]

/-- C6 (witness). -/
theorem suffix_rules_witness :
    suffixOf (some ("name.txt".data)) = (splitext ("name.txt".data)).2 ∧
    suffixOf (some ("audio".data)) = [] :=
  ⟨suffix_rules.2.2.1 ("name.txt".data) (by decide),
   suffix_rules.2.2.2 ("audio".data) (by decide) (by decide)⟩

/-- C8: when the referenced fixture file does not exist, `run_test`
returns a `TestResult` with error "File not found: <path>", similarity 0,
passed false and empty actual text, and the service is not contacted (the
returned flag is `false`). -/
theorem run_test_missing_file (http : List Char → HttpOutcome)
    (fsExists : List Char → Bool) (mediaDir : List Char) (threshold : ℚ)
    (tc : TestCase)
    (h : fsExists (mediaDir ++ '/' :: tc.file) = false) :
    run_test http fsExists mediaDir threshold tc =
      some (⟨tc.file, tc.description, tc.expected, [], 0, false,
             some (("File not found: ".data) ++ (mediaDir ++ '/' :: tc.file))⟩,
            false) := by
  simp [run_test, h]

/-- C8 (witness). -/
theorem run_test_missing_file_witness :
    run_test (fun _ => HttpOutcome.exception []) (fun _ => false)
        ("media".data) (7 / 10) ⟨("a.wav".data), ("hi".data), []⟩ =
      some (⟨("a.wav".data), [], ("hi".data), [], 0, false,
             some (("File not found: ".data) ++
               (("media".data) ++ '/' :: ("a.wav".data)))⟩,
            false) :=
  run_test_missing_file _ _ _ _ _ rfl

/-- C9: every `TestResult` that `run_test` produces satisfies the
invariant that the similarity score is genuine iff the error is absent:
with no error, `similarity` is `calculate_similarity` of the result's
expected and actual texts and `passed` is the threshold comparison; with
an error, `actual` is empty, `similarity` is 0 and `passed` is false. -/
theorem run_test_invariant (http : List Char → HttpOutcome)
    (fsExists : List Char → Bool) (mediaDir : List Char) (threshold : ℚ)
    (tc : TestCase) (r : TestResult) (b : Bool)
    (h : run_test http fsExists mediaDir threshold tc = some (r, b)) :
    (r.error = none →
      r.similarity = calculate_similarity r.expected r.actual ∧
      r.passed = decide (threshold ≤ r.similarity)) ∧
    (r.error ≠ none →
      r.actual = [] ∧ r.similarity = 0 ∧ r.passed = false) := by
  simp only [run_test] at h
  split at h
  · simp only [Option.some.injEq, Prod.mk.injEq] at h
    obtain ⟨hr, -⟩ := h
    subst hr
    exact ⟨fun hco => by simp at hco, fun _ => ⟨rfl, rfl, rfl⟩⟩
  · split at h
    · simp only [Option.some.injEq, Prod.mk.injEq] at h
      obtain ⟨hr, -⟩ := h
      subst hr
      constructor
      · intro hco
        rename_i htr
        rw [show (⟨tc.file, tc.description, tc.expected, [], 0, false,
              (transcribe_file (http (mediaDir ++ '/' :: tc.file))).2⟩ :
              TestResult).error =
            (transcribe_file (http (mediaDir ++ '/' :: tc.file))).2 from rfl]
          at hco
        rw [hco] at htr
        simp [isTruthyStr] at htr
      · intro _
        exact ⟨rfl, rfl, rfl⟩
    · split at h
      · exact absurd h (by simp)
      · simp only [Option.some.injEq, Prod.mk.injEq] at h
        obtain ⟨hr, -⟩ := h
        subst hr
        exact ⟨fun _ => ⟨rfl, rfl⟩, fun hc => absurd rfl hc⟩

/-- C9 (witness). -/
theorem run_test_invariant_witness :
    (sampleResult.error = none →
      sampleResult.similarity =
        calculate_similarity sampleResult.expected sampleResult.actual ∧
      sampleResult.passed = decide ((7 : ℚ)/10 ≤ sampleResult.similarity)) ∧
    (sampleResult.error ≠ none →
      sampleResult.actual = [] ∧ sampleResult.similarity = 0 ∧
      sampleResult.passed = false) :=
  run_test_invariant (fun _ => HttpOutcome.response 200 (some ("hi".data)) [])
    (fun _ => true) ("media".data) (7 / 10)
    ⟨("f.wav".data), ("hi".data), []⟩ sampleResult true rfl

/-- C10: `transcribe_file` always returns exactly one non-`None`
component: a 200 response yields the `text` field (defaulting to the
empty string when absent) and no error; any non-200 status yields no text
and the "HTTP <status>: <body>" error; a raised transport exception
yields no text and the exception message. -/
theorem transcribe_file_exclusive :
    (∀ o : HttpOutcome,
      ((transcribe_file o).1 = none ↔ (transcribe_file o).2 ≠ none)) ∧
    (∀ (tf : Option (List Char)) (body : List Char),
      transcribe_file (.response 200 tf body) = (some (tf.getD []), none)) ∧
    (∀ (s : Nat) (tf : Option (List Char)) (body : List Char), s ≠ 200 →
      transcribe_file (.response s tf body) =
        (none, some (("HTTP ".data) ++ (Nat.repr s).data ++ (": ".data) ++ body))) ∧
    (∀ msg : List Char, transcribe_file (.exception msg) = (none, some msg)) := by
  refine ⟨?_, ?_, ?_, ?_⟩
  · intro o
    cases o with
    | response s tf body =>
      by_cases hs : s = 200 <;> simp [transcribe_file, hs]
    | exception msg => simp [transcribe_file]
  · intro tf body; rfl
  · intro s tf body hs; simp [transcribe_file, hs]
  · intro msg; rfl

/-- C10 (witness). -/
theorem transcribe_file_exclusive_witness :
    transcribe_file (.response 404 none ("err".data)) =
      (none, some (("HTTP ".data) ++ (Nat.repr 404).data ++ (": ".data) ++
        ("err".data))) :=
  transcribe_file_exclusive.2.2.1 404 none ("err".data) (by decide)

end VoiceRelay
